import Mathlib

/-!
Shallow embedding of the opentui SSH gateway core
(`src/packages/ssh/src/*.ts`): the middleware composition engine
(`compose` in `middleware/index.ts`), the authentication dispatch of
`SSHServer.handleAuth` / `handleConnection` (`server.ts`), the session
bridge `SSHSession` (`session.ts`: the `onFlush` handler, `handleResize`,
`close`, `_cleanup`), and the exec-request handler of
`SSHServer.handleSession`.

Middleware bodies, the SSH transport and the renderer are external code;
they are modelled by the visible interaction they have with the embedded
state: a middleware is abstracted by how it uses its `next` continuation
and the context capabilities, the transport by the list of primitive calls
(`accept` / `reject` / `write` / `exit` / `end`) it receives, the renderer
by the list of operations (`resize` / `stop` / `destroy`) issued to it.
-/

/-! ### Middleware composition engine (`compose`, middleware/index.ts lines 41-60) -/

/-- Abstraction of one middleware body by its use of the `next`
continuation: it never calls `next` (short-circuit), calls it exactly once
(with code before and after the call), or calls it twice in the same
activation (`await next(); await next()`). -/
inductive MWBehavior
  | noNext
  | callsNext
  | callsNextTwice
deriving DecidableEq, Repr

/-- Observable events of one dispatch: the code of middleware `i` that
runs before its `next()` call, the code that runs after `next()` returns,
and the invocation of the terminal continuation passed to the composed
middleware. -/
inductive DispatchEv
  | before (i : Nat)
  | after (i : Nat)
  | terminal
deriving DecidableEq, Repr

/-- The message of the Error thrown by `dispatch` when `next()` is called
a second time in one activation (middleware/index.ts line 46). -/
def reentrantMsg : String := "next() called multiple times"

/-- Embedding of the inner `dispatch(i)` of `compose`.  The first
argument is the suffix `middlewares[i..]` of the chain, the second the
absolute position `i`, the third the current value of the mutable closure
variable `index` (initially `-1`, set to `i` on entry, threaded through
recursive calls exactly as the shared mutable variable is).  Returns the
trace of events that actually ran, and either the final value of `index`
or the propagated error (`if (i <= index) throw Error(...)`; a thrown
error aborts the activation, so no `after` event is appended on the error
path). -/
def runDispatch : List MWBehavior → Nat → Int → List DispatchEv × Except String Int
  | [], i, idx =>
    if (i : Int) ≤ idx then ([], Except.error reentrantMsg)
    else ([DispatchEv.terminal], Except.ok (i : Int))
  | MWBehavior.noNext :: _, i, idx =>
    if (i : Int) ≤ idx then ([], Except.error reentrantMsg)
    else ([DispatchEv.before i], Except.ok (i : Int))
  | MWBehavior.callsNext :: rest, i, idx =>
    if (i : Int) ≤ idx then ([], Except.error reentrantMsg)
    else
      match runDispatch rest (i + 1) (i : Int) with
      | (tr1, Except.error e) => (DispatchEv.before i :: tr1, Except.error e)
      | (tr1, Except.ok idx1) =>
        (DispatchEv.before i :: (tr1 ++ [DispatchEv.after i]), Except.ok idx1)
  | MWBehavior.callsNextTwice :: rest, i, idx =>
    if (i : Int) ≤ idx then ([], Except.error reentrantMsg)
    else
      match runDispatch rest (i + 1) (i : Int) with
      | (tr1, Except.error e) => (DispatchEv.before i :: tr1, Except.error e)
      | (tr1, Except.ok idx1) =>
        match runDispatch rest (i + 1) idx1 with
        | (tr2, Except.error e) => (DispatchEv.before i :: (tr1 ++ tr2), Except.error e)
        | (tr2, Except.ok idx2) =>
          (DispatchEv.before i :: (tr1 ++ tr2 ++ [DispatchEv.after i]), Except.ok idx2)

/-- Running the middleware produced by `compose(...middlewares)`: the
body is `let index = -1; ...; await dispatch(0)`. -/
def composeRun (mws : List MWBehavior) : List DispatchEv × Except String Int :=
  runDispatch mws 0 (-1)

/-- Length of the leading run of middlewares that do call `next`: the
point at which the chain truncates (equal to the chain length when no
middleware short-circuits). -/
def scLen : List MWBehavior → Nat
  | MWBehavior.callsNext :: rest => scLen rest + 1
  | _ => 0

/-- Expected onion-order trace of a dispatch without re-entrant `next`
calls, written from the specified onion model: `before` events in
ascending index order going in, the terminal continuation exactly once at
the bottom when no middleware short-circuits, `after` events in
descending index order unwinding. -/
def expectedOnionTrace : List MWBehavior → Nat → List DispatchEv
  | [], _ => [DispatchEv.terminal]
  | MWBehavior.callsNext :: rest, i =>
    DispatchEv.before i :: (expectedOnionTrace rest (i + 1) ++ [DispatchEv.after i])
  | _ :: _, i => [DispatchEv.before i]

/-- Indices of the `before` events of a trace, in order. -/
def beforeIdx (tr : List DispatchEv) : List Nat :=
  tr.filterMap fun e =>
    match e with
    | DispatchEv.before i => some i
    | _ => none

/-- Indices of the `after` events of a trace, in order. -/
def afterIdx (tr : List DispatchEv) : List Nat :=
  tr.filterMap fun e =>
    match e with
    | DispatchEv.after i => some i
    | _ => none

/-- Whether a dispatch event is the terminal continuation firing. -/
def isTerminalEv : DispatchEv → Bool
  | DispatchEv.terminal => true
  | _ => false

/-- How many times the terminal continuation fired in a trace. -/
def terminalCount (tr : List DispatchEv) : Nat :=
  tr.countP isTerminalEv

/-! ### Flush handler (`onFlush` in `SSHSession.create`, session.ts lines 272-296) -/

/-- Behaviour of the external `stream.write(out, cb)` call: it can throw
synchronously (destroyed stream), or accept the buffer and later invoke
its completion callback with an optional error. -/
inductive WriteOutcome
  | throwsSync (msg : String)
  | completes (err : Option String)
deriving DecidableEq, Repr

/-- Observable events of one flush-handler invocation. -/
inductive FlushEv
  | streamWrite
  | logError (msg : String)
  | doneCall
deriving DecidableEq, Repr

/-- Embedding of the `onFlush` handler.  `sessionSet` models whether the
`session` placeholder has already been assigned (it is `null` until
`createCliRenderer` resolves, and `session?._closed` is falsy then);
`sessionClosed` is the `_closed` flag; `streamWritable` is
`stream.writable`.  The guard path returns after calling `done` once; a
synchronous throw of `stream.write` is caught, logged and acknowledged;
a completed write acknowledges from the write-completion callback,
logging first when the callback reports an error. -/
def onFlush (sessionSet sessionClosed streamWritable : Bool) (w : WriteOutcome) :
    List FlushEv :=
  if (sessionSet && sessionClosed) || !streamWritable then [FlushEv.doneCall]
  else
    match w with
    | WriteOutcome.throwsSync m =>
      [FlushEv.streamWrite, FlushEv.logError ("[SSH] Stream write threw: " ++ m),
        FlushEv.doneCall]
    | WriteOutcome.completes none => [FlushEv.streamWrite, FlushEv.doneCall]
    | WriteOutcome.completes (some e) =>
      [FlushEv.streamWrite, FlushEv.logError ("[SSH] Stream write error: " ++ e),
        FlushEv.doneCall]

/-- Whether a flush event is a call of the `done` acknowledgment. -/
def isDoneCall : FlushEv → Bool
  | FlushEv.doneCall => true
  | _ => false

/-- Number of `done` calls in a flush trace. -/
def doneCount (tr : List FlushEv) : Nat :=
  tr.countP isDoneCall

/-! ### Authentication dispatch (`SSHServer.handleAuth` / `handleConnection`, server.ts) -/

/-- Primitive calls forwarded to the ssh2 transport auth context:
`ctx.accept()` and `ctx.reject(allowedMethods)` (where `none` models a
call with the argument left `undefined`). -/
inductive TransportOp
  | taccept
  | treject (allowedMethods : Option (List String))
deriving DecidableEq, Repr

/-- Dispatch-local state of one `handleAuth` call: the `accepted` and
`rejected` flags and the calls issued to the transport so far. -/
structure AuthState where
  accepted : Bool
  rejected : Bool
  transport : List TransportOp
deriving DecidableEq, Repr

/-- State at the start of `handleAuth`: both flags false, nothing sent. -/
def initAuthState : AuthState := ⟨false, false, []⟩

/-- `middlewareCtx.accept` (server.ts lines 149-152): records the outcome
locally, then forwards to the transport's native accept. -/
def ctxAccept (s : AuthState) : AuthState :=
  { s with accepted := true, transport := s.transport ++ [TransportOp.taccept] }

/-- `middlewareCtx.reject` (server.ts lines 154-157): records the outcome
locally, then forwards to the transport's native reject. -/
def ctxReject (ms : Option (List String)) (s : AuthState) : AuthState :=
  { s with rejected := true, transport := s.transport ++ [TransportOp.treject ms] }

/-- The terminal continuation given to the composed middleware
(server.ts lines 159-164): when neither flag is set, call the transport's
native `ctx.reject(["publickey"])` directly — not `middlewareCtx.reject`,
so the `rejected` flag is left untouched. -/
def defaultNext (s : AuthState) : AuthState :=
  if !s.accepted && !s.rejected then
    { s with transport := s.transport ++ [TransportOp.treject (some ["publickey"])] }
  else s

/-- Abstraction of the middleware chain's interaction with the dispatch:
each element is a call of `middlewareCtx.accept`, of
`middlewareCtx.reject`, or the terminal continuation running. -/
inductive AuthAct
  | acc
  | rej (ms : Option (List String))
  | term
deriving DecidableEq, Repr

/-- Replay an interaction sequence against the dispatch state. -/
def runAuthActs : List AuthAct → AuthState → AuthState
  | [], s => s
  | AuthAct.acc :: r, s => runAuthActs r (ctxAccept s)
  | AuthAct.rej ms :: r, s => runAuthActs r (ctxReject ms s)
  | AuthAct.term :: r, s => runAuthActs r (defaultNext s)

/-- Connection-level events emitted by the server. -/
inductive ServerEv
  | errorEv (msg : String)
deriving DecidableEq, Repr

/-- `UserInfo` as built by `handleAuth` on acceptance. -/
structure UserInfo where
  username : String
  publicKey : Option String
deriving DecidableEq, Repr

/-- Result of one authentication attempt. -/
structure AuthOutcome where
  finalState : AuthState
  serverEvents : List ServerEv
  authenticatedUser : Option UserInfo
deriving DecidableEq, Repr

/-- One authentication attempt: the chain performs `acts` and then either
returns normally (`thrown = none`; `handleAuth` returns the `UserInfo`
when `accepted` is set) or throws (`thrown = some e`, the acts being
those that ran before the throw).  A rejected `handleAuth` promise is
caught in `handleConnection` (server.ts lines 117-120): the error is
re-emitted as a connection-level `error` event and `ctx.reject()` is
called on the transport with no argument. -/
def handleAuthModel (u : String) (pk : Option String) (acts : List AuthAct)
    (thrown : Option String) : AuthOutcome :=
  let s := runAuthActs acts initAuthState
  match thrown with
  | none => ⟨s, [], if s.accepted then some ⟨u, pk⟩ else none⟩
  | some e =>
    ⟨{ s with transport := s.transport ++ [TransportOp.treject none] },
      [ServerEv.errorEv e], none⟩

/-! ### Logging middleware wrapping (`logging`, middleware/index.ts lines 62-110) -/

/-- Dispatch-local state when the chain is `[logging(...), ...]`: the
`handleAuth` flags and transport calls as above, plus logging's local
`authResult` tracker and the invocations of its `onAuthAttempt` callback
(recording the `success` argument of each). -/
structure LogAuthState where
  accepted : Bool
  rejected : Bool
  authResult : Option Bool
  transport : List TransportOp
  authAttempts : List Bool
deriving DecidableEq, Repr

/-- Initial state of such a dispatch. -/
def initLogAuthState : LogAuthState := ⟨false, false, none, [], []⟩

/-- The original `middlewareCtx.accept` installed by `handleAuth`. -/
def origAccept (s : LogAuthState) : LogAuthState :=
  { s with accepted := true, transport := s.transport ++ [TransportOp.taccept] }

/-- The original `middlewareCtx.reject` installed by `handleAuth`. -/
def origReject (ms : Option (List String)) (s : LogAuthState) : LogAuthState :=
  { s with rejected := true, transport := s.transport ++ [TransportOp.treject ms] }

/-- `ctx.accept` after logging's before-next code replaced it (lines
72-77): sets `authResult = true`, then calls the original. -/
def wrappedAccept (s : LogAuthState) : LogAuthState :=
  origAccept { s with authResult := some true }

/-- `ctx.reject` after logging's before-next code replaced it (lines
79-84): sets `authResult = false`, then calls the original. -/
def wrappedReject (ms : Option (List String)) (s : LogAuthState) : LogAuthState :=
  origReject ms { s with authResult := some false }

/-- The terminal continuation of `handleAuth` in this setting: it calls
the transport's native `ctx.reject(["publickey"])` directly, touching
neither the `rejected` flag nor any wrapped capability, so `authResult`
is not updated either. -/
def terminalDefault (s : LogAuthState) : LogAuthState :=
  if !s.accepted && !s.rejected then
    { s with transport := s.transport ++ [TransportOp.treject (some ["publickey"])] }
  else s

/-- Interaction of the middlewares running inside logging's `next()`:
they see the wrapped capabilities. -/
inductive InnerAct
  | iacc
  | irej (ms : Option (List String))
deriving DecidableEq, Repr

/-- Replay the inner middlewares' capability calls. -/
def runInner : List InnerAct → LogAuthState → LogAuthState
  | [], s => s
  | InnerAct.iacc :: r, s => runInner r (wrappedAccept s)
  | InnerAct.irej ms :: r, s => runInner r (wrappedReject ms s)

/-- Logging's after-next code (lines 88-91): invoke `onAuthAttempt` with
the tracked result when one was recorded, otherwise do nothing. -/
def loggingAfter (s : LogAuthState) : LogAuthState :=
  match s.authResult with
  | some b => { s with authAttempts := s.authAttempts ++ [b] }
  | none => s

/-- One full auth dispatch of the chain `[logging(onAuthAttempt), inner...]`
in which the inner middlewares perform `acts` and the chain runs to its
end: logging wraps the capabilities, the inner acts run, the terminal
continuation runs, logging's after-next code unwinds. -/
def loggingDispatch (acts : List InnerAct) : LogAuthState :=
  loggingAfter (terminalDefault (runInner acts initLogAuthState))

/-! ### Session bridge state (`SSHSession`, session.ts) -/

/-- `PtyInfo` (types.ts): terminal type and dimensions. -/
structure PtyInfo where
  term : String
  width : Int
  height : Int
deriving DecidableEq, Repr

/-- Events emitted by an `SSHSession`. -/
inductive SessionEv
  | resizeEv (w h : Int)
  | closeEv
deriving DecidableEq, Repr

/-- Operations issued to the renderer. -/
inductive RendererOp
  | rresize (w h : Int)
  | rstop
  | rdestroy
deriving DecidableEq, Repr

/-- Operations issued to the SSH channel. -/
inductive StreamOp
  | sexit (code : Int)
  | send
deriving DecidableEq, Repr

/-- State of one `SSHSession`: the `_closed` flag, the stored `_pty`,
whether a teardown continuation (`renderer.idle().then(...).catch(...)`)
is scheduled and not yet settled, and the operation/event logs. -/
structure SessionState where
  closed : Bool
  pty : PtyInfo
  pendingTeardown : Bool
  rendererOps : List RendererOp
  streamOps : List StreamOp
  events : List SessionEv
deriving DecidableEq, Repr

/-- A freshly created session over the given pty. -/
def initSession (p : PtyInfo) : SessionState :=
  ⟨false, p, false, [], [], []⟩

namespace SSHSession

/-- `handleResize` (session.ts lines 342-351): silently ignore any
dimension outside [1, 10000]; otherwise update the stored pty, call the
renderer's resize, and emit one `resize` event. -/
def handleResize (w h : Int) (s : SessionState) : SessionState :=
  if w < 1 ∨ h < 1 ∨ w > 10000 ∨ h > 10000 then s
  else
    { s with
      pty := { s.pty with width := w, height := h },
      rendererOps := s.rendererOps ++ [RendererOp.rresize w h],
      events := s.events ++ [SessionEv.resizeEv w h] }

/-- `_cleanup` (session.ts lines 323-340), the external-close entry
point: guarded by the `closed` flag; stops the renderer and schedules the
asynchronous idle-wait/destroy/notify continuation. -/
def cleanup (s : SessionState) : SessionState :=
  if s.closed then s
  else
    { s with
      closed := true,
      rendererOps := s.rendererOps ++ [RendererOp.rstop],
      pendingTeardown := true }

/-- `close(exitCode)` (session.ts lines 353-375), the local-close entry
point: guarded by the `closed` flag; delivers the exit code and ends the
channel first, then stops the renderer and schedules the same
asynchronous continuation. -/
def close (exitCode : Int) (s : SessionState) : SessionState :=
  if s.closed then s
  else
    { s with
      closed := true,
      streamOps := s.streamOps ++ [StreamOp.sexit exitCode, StreamOp.send],
      rendererOps := s.rendererOps ++ [RendererOp.rstop],
      pendingTeardown := true }

/-- Settling of the scheduled teardown continuation: on a resolved
`idle()` the renderer is destroyed and `close` is emitted; on a rejected
`idle()` the error is logged and `close` is still emitted. -/
def settleTeardown (idleOk : Bool) (s : SessionState) : SessionState :=
  if s.pendingTeardown then
    { s with
      pendingTeardown := false,
      rendererOps := s.rendererOps ++ (if idleOk then [RendererOp.rdestroy] else []),
      events := s.events ++ [SessionEv.closeEv] }
  else s

end SSHSession

/-- Whether a session event is the `close` event. -/
def isCloseEv : SessionEv → Bool
  | SessionEv.closeEv => true
  | _ => false

/-- Number of `close` events emitted. -/
def closeEvCount (s : SessionState) : Nat :=
  s.events.countP isCloseEv

/-! ### Exec-request handling (`SSHServer.handleSession`, server.ts lines 239-251) -/

/-- Observable actions of the exec handler on its channel.
`shellEnter` marks entering the shell/session phase
(`SSHSession.create` + the session-phase middleware dispatch), which only
the shell handler performs. -/
inductive ExecEv
  | acceptCall
  | logExec (line : String)
  | chanExit (code : Int)
  | chanEnd
  | shellEnter
deriving DecidableEq, Repr

/-- The logged command text: `command ?? "<unknown>"`, truncated to 50
characters with an ellipsis appended when longer. -/
def execLogCommand (command : Option String) : String :=
  let c := command.getD "<unknown>"
  c.take 50 ++ (if c.length > 50 then "..." else "")

/-- The exec handler: always accept the channel; when `accept()` yields a
stream, log the attempt, terminate with exit status 1 and end the
stream.  It never constructs a session or enters the shell phase. -/
def handleExec (command : Option String) (acceptYieldsStream : Bool) : List ExecEv :=
  [ExecEv.acceptCall] ++
    (if acceptYieldsStream then
      [ExecEv.logExec (execLogCommand command), ExecEv.chanExit 1, ExecEv.chanEnd]
    else [])

/-- A sample pty (the default the shell handler falls back to). -/
def pty0 : PtyInfo := ⟨"xterm", 80, 24⟩

/-! ### Theorems -/

/-- C1: every invocation of the session flush handler calls the
acknowledgment `done` exactly once, on every branch: the session already
closed, the channel not writable, a synchronous write failure, and a
successful write (where `done` is called from the write-completion
callback). -/
theorem flush_done_exactly_once (sessionSet sessionClosed streamWritable : Bool)
    (w : WriteOutcome) :
    doneCount (onFlush sessionSet sessionClosed streamWritable w) = 1 := by
  cases sessionSet <;> cases sessionClosed <;> cases streamWritable <;>
    rcases w with m | (_ | e) <;> rfl

/-- C4: when no middleware invokes `accept` or `reject` during an auth
dispatch and the terminal continuation runs (exactly once, as `compose`
guarantees), the transport receives exactly one reject, advertising
`["publickey"]` as the allowed retry method. -/
theorem default_reject_publickey (acts : List AuthAct)
    (hterm : ∀ a ∈ acts, a = AuthAct.term) (hlen : acts.length = 1) :
    (runAuthActs acts initAuthState).transport =
      [TransportOp.treject (some ["publickey"])] := by
  cases acts with
  | nil => simp at hlen
  | cons a t =>
    cases t with
    | nil =>
      have ha : a = AuthAct.term := hterm a (List.mem_cons_self a [])
      subst ha
      rfl
    | cons b t2 => simp at hlen

/-- Witness for C4 at the concrete interaction `[term]`. -/
theorem default_reject_publickey_witness :
    (∀ a ∈ [AuthAct.term], a = AuthAct.term) ∧
      ([AuthAct.term] : List AuthAct).length = 1 ∧
      (runAuthActs [AuthAct.term] initAuthState).transport =
        [TransportOp.treject (some ["publickey"])] :=
  ⟨by decide, by decide, default_reject_publickey [AuthAct.term] (by decide) (by decide)⟩

/-- C5: `handleResize` silently ignores any request with a dimension
outside [1, 10000] (state unchanged, no renderer call, no event);
otherwise it updates the stored pty to the new dimensions, issues exactly
one renderer resize, and emits exactly one `resize` event, touching
nothing else. -/
theorem handleResize_bounds (w h : Int) (s : SessionState) :
    ((w < 1 ∨ h < 1 ∨ w > 10000 ∨ h > 10000) → SSHSession.handleResize w h s = s) ∧
    (¬(w < 1 ∨ h < 1 ∨ w > 10000 ∨ h > 10000) →
      SSHSession.handleResize w h s =
        { s with
          pty := { s.pty with width := w, height := h },
          rendererOps := s.rendererOps ++ [RendererOp.rresize w h],
          events := s.events ++ [SessionEv.resizeEv w h] }) := by
  constructor
  · intro hc
    simp [SSHSession.handleResize, hc]
  · intro hc
    simp [SSHSession.handleResize, hc]

/-- Witness for C5: `(0, 24)` is ignored, `(80, 24)` updates state and
emits the resize event, on a fresh session. -/
theorem handleResize_bounds_witness :
    ((0:Int) < 1 ∨ (24:Int) < 1 ∨ (0:Int) > 10000 ∨ (24:Int) > 10000) ∧
    SSHSession.handleResize 0 24 (initSession pty0) = initSession pty0 ∧
    ¬((80:Int) < 1 ∨ (24:Int) < 1 ∨ (80:Int) > 10000 ∨ (24:Int) > 10000) ∧
    SSHSession.handleResize 80 24 (initSession pty0) =
      { (initSession pty0) with
        pty := { (initSession pty0).pty with width := 80, height := 24 },
        rendererOps := (initSession pty0).rendererOps ++ [RendererOp.rresize 80 24],
        events := (initSession pty0).events ++ [SessionEv.resizeEv 80 24] } :=
  ⟨by decide, (handleResize_bounds 0 24 (initSession pty0)).1 (by decide), by decide,
    (handleResize_bounds 80 24 (initSession pty0)).2 (by decide)⟩

/-- C6: session teardown is idempotent.  Calling `close` twice equals
calling it once, and once the scheduled teardown settles the `close`
event has been emitted exactly once; calling `close` after the teardown
settled is still a no-op; calling `close` after an external
error/hangup-triggered `_cleanup` is a no-op on any state; and an
external cleanup also emits `close` exactly once. -/
theorem close_idempotent_single_close_event (p : PtyInfo) (e1 e2 : Int) (k : Bool) :
    SSHSession.close e2 (SSHSession.close e1 (initSession p)) =
      SSHSession.close e1 (initSession p) ∧
    closeEvCount (SSHSession.settleTeardown k
      (SSHSession.close e2 (SSHSession.close e1 (initSession p)))) = 1 ∧
    SSHSession.close e2 (SSHSession.settleTeardown k
      (SSHSession.close e1 (initSession p))) =
      SSHSession.settleTeardown k (SSHSession.close e1 (initSession p)) ∧
    (∀ s : SessionState, SSHSession.close e2 (SSHSession.cleanup s) =
      SSHSession.cleanup s) ∧
    closeEvCount (SSHSession.settleTeardown k
      (SSHSession.close e2 (SSHSession.cleanup (initSession p)))) = 1 := by
  refine ⟨rfl, rfl, rfl, ?_, rfl⟩
  intro s
  by_cases hs : s.closed <;>
    simp [SSHSession.cleanup, SSHSession.close, hs]

/-- C7 counterexample: a second call of the context's `reject` capability
after a decision has already been recorded is forwarded to the transport
again — the transport receives two rejects, not one. -/
theorem double_reject_forwards_to_transport :
    (runAuthActs [AuthAct.rej (some ["publickey"]), AuthAct.rej (some ["publickey"])]
        initAuthState).transport =
      [TransportOp.treject (some ["publickey"]),
        TransportOp.treject (some ["publickey"])] := by
  decide

/-- C7 amended: the dispatch-local outcome flags are idempotent (a repeat
call leaves `accepted`/`rejected` at their decided values, so the
pipeline's recorded outcome is not double-counted), but every call of the
`accept`/`reject` capabilities — including calls after a decision — is
forwarded to the transport again; there is no acknowledged-no-op guard. -/
theorem decision_flags_idempotent_forwarding_unguarded
    (ms : Option (List String)) (s : AuthState) :
    (ctxReject ms (ctxReject ms s)).rejected = (ctxReject ms s).rejected ∧
    (ctxAccept (ctxAccept s)).accepted = (ctxAccept s).accepted ∧
    (ctxReject ms (ctxReject ms s)).transport =
      (ctxReject ms s).transport ++ [TransportOp.treject ms] ∧
    (ctxAccept (ctxAccept s)).transport =
      (ctxAccept s).transport ++ [TransportOp.taccept] :=
  ⟨rfl, rfl, rfl, rfl⟩

/-- C8: for every exec request, any exit status delivered on the channel
is non-zero; when `accept()` yields a stream the handler logs, exits with
status 1 and ends the stream, in that order; and the shell/session phase
is never entered for that channel. -/
theorem exec_terminated_nonzero (command : Option String) (b : Bool) :
    (∀ c : Int, ExecEv.chanExit c ∈ handleExec command b → c ≠ 0) ∧
    (b = true →
      handleExec command b =
        [ExecEv.acceptCall, ExecEv.logExec (execLogCommand command),
          ExecEv.chanExit 1, ExecEv.chanEnd]) ∧
    ExecEv.shellEnter ∉ handleExec command b := by
  cases b <;> simp [handleExec]

/-- Witness for C8 at a concrete exec command. -/
theorem exec_terminated_nonzero_witness :
    ((1 : Int) ≠ 0) ∧
    handleExec (some "env") true =
      [ExecEv.acceptCall, ExecEv.logExec (execLogCommand (some "env")),
        ExecEv.chanExit 1, ExecEv.chanEnd] ∧
    ExecEv.shellEnter ∉ handleExec (some "env") true :=
  ⟨(exec_terminated_nonzero (some "env") true).1 1 (by decide),
    (exec_terminated_nonzero (some "env") true).2.1 rfl,
    (exec_terminated_nonzero (some "env") true).2.2⟩

/-- C9: when a middleware throws during an authentication dispatch, the
error is surfaced as exactly one connection-level `error` event, the
attempt is forced to a transport reject, and no user is authenticated —
the thrown error is never silently dropped. -/
theorem middleware_throw_surfaced (u : String) (pk : Option String)
    (acts : List AuthAct) (e : String) :
    (handleAuthModel u pk acts (some e)).serverEvents = [ServerEv.errorEv e] ∧
    (handleAuthModel u pk acts (some e)).finalState.transport =
      (runAuthActs acts initAuthState).transport ++ [TransportOp.treject none] ∧
    (handleAuthModel u pk acts (some e)).authenticatedUser = none :=
  ⟨rfl, rfl, rfl⟩

/-- C10: when no middleware decides, the terminal continuation's default
reject reaches the transport through the native reject, bypassing the
wrapped capability installed by the logging middleware: the dispatch's
`rejected` flag stays false, logging's tracked `authResult` stays unset,
and `onAuthAttempt` is never invoked, even though the transport did
receive the `["publickey"]` reject. -/
theorem default_reject_bypasses_wrapped_capability :
    (loggingDispatch []).transport = [TransportOp.treject (some ["publickey"])] ∧
    (loggingDispatch []).rejected = false ∧
    (loggingDispatch []).authResult = none ∧
    (loggingDispatch []).authAttempts = [] := by
  decide

/-- Re-entering `dispatch` at a position not above the recorded `index`
immediately throws the re-entrant error, whatever the remaining chain. -/
theorem runDispatch_guard (rest : List MWBehavior) (i : Nat) (idx : Int)
    (h : (i : Int) ≤ idx) :
    runDispatch rest i idx = ([], Except.error reentrantMsg) := by
  rcases rest with _ | ⟨mw, rest⟩
  · simp [runDispatch, h]
  · cases mw <;> simp [runDispatch, h]

/-- A successful dispatch leaves the `index` variable at or above the
position it was entered at. -/
theorem runDispatch_ok_le : ∀ (rest : List MWBehavior) (i : Nat) (idx : Int)
    (tr : List DispatchEv) (idx1 : Int),
    runDispatch rest i idx = (tr, Except.ok idx1) → (i : Int) ≤ idx1 := by
  intro rest
  induction rest with
  | nil =>
    intro i idx tr idx1 h
    simp only [runDispatch] at h
    split at h
    · simp at h
    · obtain ⟨-, h2⟩ := Prod.mk.injEq .. ▸ h
      simp only [Except.ok.injEq] at h2
      omega
  | cons mw rest ih =>
    intro i idx tr idx1 h
    cases mw
    case noNext =>
      simp only [runDispatch] at h
      split at h
      · simp at h
      · obtain ⟨-, h2⟩ := Prod.mk.injEq .. ▸ h
        simp only [Except.ok.injEq] at h2
        omega
    case callsNext =>
      simp only [runDispatch] at h
      split at h
      · simp at h
      · split at h
        · simp at h
        · rename_i tr1 idxA heq
          obtain ⟨-, h2⟩ := Prod.mk.injEq .. ▸ h
          simp only [Except.ok.injEq] at h2
          have := ih (i + 1) (i : Int) tr1 idxA heq
          push_cast at this ⊢
          omega
    case callsNextTwice =>
      simp only [runDispatch] at h
      split at h
      · simp at h
      · split at h
        · simp at h
        · rename_i tr1 idxA heqA
          split at h
          · simp at h
          · rename_i tr2 idxB heqB
            obtain ⟨-, h2⟩ := Prod.mk.injEq .. ▸ h
            simp only [Except.ok.injEq] at h2
            have := ih (i + 1) idxA tr2 idxB heqB
            push_cast at this ⊢
            omega

/-- The only error a dispatch can produce is the re-entrant-next error. -/
theorem runDispatch_error_msg : ∀ (rest : List MWBehavior) (i : Nat) (idx : Int)
    (tr : List DispatchEv) (e : String),
    runDispatch rest i idx = (tr, Except.error e) → e = reentrantMsg := by
  intro rest
  induction rest with
  | nil =>
    intro i idx tr e h
    simp only [runDispatch] at h
    split at h
    · obtain ⟨-, h2⟩ := Prod.mk.injEq .. ▸ h
      simp only [Except.error.injEq] at h2
      exact h2.symm
    · simp at h
  | cons mw rest ih =>
    intro i idx tr e h
    cases mw
    case noNext =>
      simp only [runDispatch] at h
      split at h
      · obtain ⟨-, h2⟩ := Prod.mk.injEq .. ▸ h
        simpa using h2.symm
      · simp at h
    case callsNext =>
      simp only [runDispatch] at h
      split at h
      · obtain ⟨-, h2⟩ := Prod.mk.injEq .. ▸ h
        simpa using h2.symm
      · split at h
        · rename_i tr1 e1 heq
          obtain ⟨-, h2⟩ := Prod.mk.injEq .. ▸ h
          simp only [Except.error.injEq] at h2
          exact h2 ▸ ih (i + 1) (i : Int) tr1 e1 heq
        · simp at h
    case callsNextTwice =>
      simp only [runDispatch] at h
      split at h
      · obtain ⟨-, h2⟩ := Prod.mk.injEq .. ▸ h
        simpa using h2.symm
      · split at h
        · rename_i tr1 e1 heq
          obtain ⟨-, h2⟩ := Prod.mk.injEq .. ▸ h
          simp only [Except.error.injEq] at h2
          exact h2 ▸ ih (i + 1) (i : Int) tr1 e1 heq
        · rename_i tr1 idxA heqA
          split at h
          · rename_i tr2 e2 heqB
            obtain ⟨-, h2⟩ := Prod.mk.injEq .. ▸ h
            simp only [Except.error.injEq] at h2
            exact h2 ▸ ih (i + 1) idxA tr2 e2 heqB
          · simp at h

/-- A dispatch entered below the recorded `index`, over a chain with no
re-entrant middleware, succeeds and produces exactly the onion-order
trace, leaving `index` at the truncation point. -/
theorem runDispatch_no_reentrant : ∀ (rest : List MWBehavior) (i : Nat) (idx : Int),
    idx < (i : Int) → (∀ b ∈ rest, b ≠ MWBehavior.callsNextTwice) →
    runDispatch rest i idx =
      (expectedOnionTrace rest i, Except.ok ((i : Int) + scLen rest)) := by
  intro rest
  induction rest with
  | nil =>
    intro i idx hidx hb
    simp [runDispatch, expectedOnionTrace, scLen, not_le.mpr hidx]
  | cons mw rest ih =>
    intro i idx hidx hb
    cases mw
    case noNext =>
      simp [runDispatch, expectedOnionTrace, scLen, not_le.mpr hidx]
    case callsNext =>
      have hb' : ∀ b ∈ rest, b ≠ MWBehavior.callsNextTwice :=
        fun b m => hb b (List.mem_cons_of_mem _ m)
      have hrec := ih (i + 1) (i : Int) (by exact_mod_cast Nat.lt_succ_self i) hb'
      simp only [runDispatch]
      rw [if_neg (not_le.mpr hidx), hrec]
      simp only [expectedOnionTrace, scLen, Prod.mk.injEq, true_and]
      congr 1
      push_cast
      ring
    case callsNextTwice =>
      exact absurd rfl (hb _ (List.mem_cons_self _ _))

/-- The `before` indices of the onion trace ascend from the entry
position up to the truncation point. -/
theorem beforeIdx_expected : ∀ (rest : List MWBehavior) (i : Nat),
    beforeIdx (expectedOnionTrace rest i) =
      List.range' i (min (scLen rest + 1) rest.length) := by
  intro rest
  induction rest with
  | nil =>
    intro i
    simp [beforeIdx, expectedOnionTrace, scLen]
  | cons mw rest ih =>
    intro i
    cases mw
    case noNext =>
      simp [beforeIdx, expectedOnionTrace, scLen, Nat.succ_min_succ, List.range'_one]
    case callsNextTwice =>
      simp [beforeIdx, expectedOnionTrace, scLen, Nat.succ_min_succ, List.range'_one]
    case callsNext =>
      have := ih (i + 1)
      simp only [beforeIdx, List.filterMap] at this
      simp [beforeIdx, expectedOnionTrace, scLen, List.filterMap_append,
        Nat.succ_min_succ, List.range'_succ, this]

/-- The `after` indices of the onion trace descend from the last
middleware that called `next` back to the entry position. -/
theorem afterIdx_expected : ∀ (rest : List MWBehavior) (i : Nat),
    afterIdx (expectedOnionTrace rest i) = (List.range' i (scLen rest)).reverse := by
  intro rest
  induction rest with
  | nil =>
    intro i
    simp [afterIdx, expectedOnionTrace, scLen]
  | cons mw rest ih =>
    intro i
    cases mw
    case noNext => simp [afterIdx, expectedOnionTrace, scLen]
    case callsNextTwice => simp [afterIdx, expectedOnionTrace, scLen]
    case callsNext =>
      have := ih (i + 1)
      simp only [afterIdx, List.filterMap] at this
      simp [afterIdx, expectedOnionTrace, scLen, List.filterMap_append,
        List.range'_succ, this]

/-- The terminal continuation appears in the onion trace exactly once
when no middleware short-circuits, otherwise not at all. -/
theorem terminalCount_expected : ∀ (rest : List MWBehavior) (i : Nat),
    terminalCount (expectedOnionTrace rest i) =
      (if scLen rest = rest.length then 1 else 0) := by
  intro rest
  induction rest with
  | nil =>
    intro i
    simp [terminalCount, expectedOnionTrace, scLen, isTerminalEv]
  | cons mw rest ih =>
    intro i
    cases mw
    case noNext =>
      simp [terminalCount, expectedOnionTrace, scLen, isTerminalEv]
    case callsNextTwice =>
      simp [terminalCount, expectedOnionTrace, scLen, isTerminalEv]
    case callsNext =>
      have := ih (i + 1)
      simp only [terminalCount] at this
      simp [terminalCount, expectedOnionTrace, scLen, isTerminalEv,
        List.countP_append, List.countP_cons, this]

/-- C2: for every chain in which each middleware calls `next` at most
once, a single dispatch succeeds, producing exactly the onion trace:
before-next code runs in ascending index order up to the first middleware
that short-circuits, the terminal continuation fires exactly once (and
only when no middleware short-circuits), and after-next code unwinds in
descending index order; a short-circuit truncates the chain without any
fault. -/
theorem compose_onion_order (mws : List MWBehavior)
    (h : ∀ b ∈ mws, b ≠ MWBehavior.callsNextTwice) :
    composeRun mws = (expectedOnionTrace mws 0, Except.ok (scLen mws : Int)) ∧
    beforeIdx (composeRun mws).1 = List.range' 0 (min (scLen mws + 1) mws.length) ∧
    afterIdx (composeRun mws).1 = (List.range' 0 (scLen mws)).reverse ∧
    terminalCount (composeRun mws).1 =
      (if scLen mws = mws.length then 1 else 0) := by
  have hrun : composeRun mws =
      (expectedOnionTrace mws 0, Except.ok ((0 : Int) + scLen mws)) :=
    runDispatch_no_reentrant mws 0 (-1) (by norm_num) h
  rw [zero_add] at hrun
  refine ⟨hrun, ?_, ?_, ?_⟩
  · rw [hrun]
    exact beforeIdx_expected mws 0
  · rw [hrun]
    exact afterIdx_expected mws 0
  · rw [hrun]
    exact terminalCount_expected mws 0

/-- Witness for C2 on the chain `[callsNext, callsNext, noNext]`. -/
theorem compose_onion_order_witness :
    (∀ b ∈ [MWBehavior.callsNext, MWBehavior.callsNext, MWBehavior.noNext],
      b ≠ MWBehavior.callsNextTwice) ∧
    (composeRun [MWBehavior.callsNext, MWBehavior.callsNext, MWBehavior.noNext] =
      (expectedOnionTrace [MWBehavior.callsNext, MWBehavior.callsNext, MWBehavior.noNext] 0,
        Except.ok (scLen [MWBehavior.callsNext, MWBehavior.callsNext, MWBehavior.noNext] : Int)) ∧
    beforeIdx (composeRun [MWBehavior.callsNext, MWBehavior.callsNext, MWBehavior.noNext]).1 =
      List.range' 0 (min (scLen [MWBehavior.callsNext, MWBehavior.callsNext, MWBehavior.noNext] + 1)
        ([MWBehavior.callsNext, MWBehavior.callsNext, MWBehavior.noNext] : List MWBehavior).length) ∧
    afterIdx (composeRun [MWBehavior.callsNext, MWBehavior.callsNext, MWBehavior.noNext]).1 =
      (List.range' 0 (scLen [MWBehavior.callsNext, MWBehavior.callsNext, MWBehavior.noNext])).reverse ∧
    terminalCount (composeRun [MWBehavior.callsNext, MWBehavior.callsNext, MWBehavior.noNext]).1 =
      (if scLen [MWBehavior.callsNext, MWBehavior.callsNext, MWBehavior.noNext] =
        ([MWBehavior.callsNext, MWBehavior.callsNext, MWBehavior.noNext] : List MWBehavior).length
        then 1 else 0)) :=
  ⟨by decide, compose_onion_order _ (by decide)⟩

/-- Entering a chain whose activated prefix calls `next` once each and
then reaches a middleware that calls `next` twice always yields the
re-entrant error. -/
theorem reentrant_gen : ∀ (pre : List MWBehavior), (∀ b ∈ pre, b = MWBehavior.callsNext) →
    ∀ (suf : List MWBehavior) (i : Nat) (idx : Int), idx < (i : Int) →
    (runDispatch (pre ++ MWBehavior.callsNextTwice :: suf) i idx).2 =
      Except.error reentrantMsg := by
  intro pre
  induction pre with
  | nil =>
    intro _ suf i idx hidx
    simp only [List.nil_append, runDispatch]
    rw [if_neg (not_le.mpr hidx)]
    rcases h1 : runDispatch suf (i + 1) (i : Int) with ⟨tr1, r1⟩
    rcases r1 with e1 | idx1
    · have he : e1 = reentrantMsg :=
        runDispatch_error_msg suf (i + 1) (i : Int) tr1 e1 h1
      subst he
      rfl
    · have hle : ((i + 1 : Nat) : Int) ≤ idx1 :=
        runDispatch_ok_le suf (i + 1) (i : Int) tr1 idx1 h1
      have hg := runDispatch_guard suf (i + 1) idx1 hle
      dsimp only
      rw [hg]
  | cons b pre ih =>
    intro hpre suf i idx hidx
    have hb : b = MWBehavior.callsNext := hpre b (List.mem_cons_self _ _)
    subst hb
    have hpre' : ∀ x ∈ pre, x = MWBehavior.callsNext :=
      fun x m => hpre x (List.mem_cons_of_mem _ m)
    simp only [List.cons_append, runDispatch]
    rw [if_neg (not_le.mpr hidx)]
    have hrec := ih hpre' suf (i + 1) (i : Int) (by exact_mod_cast Nat.lt_succ_self i)
    rcases h1 : runDispatch (pre ++ MWBehavior.callsNextTwice :: suf) (i + 1) (i : Int)
      with ⟨tr1, r1⟩
    rw [h1] at hrec
    rcases r1 with e1 | idx1
    · have he : e1 = reentrantMsg := by simpa using hrec
      subst he
      rfl
    · simp at hrec

/-- C3: for every composed chain in which the activated middleware at
some position calls its `next` continuation a second time (every earlier
middleware having passed control on normally), the dispatch faults with
the distinguishable re-entrant-next error, and that error propagates out
of the dispatch as its result rather than being swallowed. -/
theorem reentrant_next_faults (pre suf : List MWBehavior)
    (h : ∀ b ∈ pre, b = MWBehavior.callsNext) :
    (composeRun (pre ++ MWBehavior.callsNextTwice :: suf)).2 =
      Except.error reentrantMsg :=
  reentrant_gen pre h suf 0 (-1) (by norm_num)

/-- Witness for C3 on the one-element chain `[callsNextTwice]`. -/
theorem reentrant_next_faults_witness :
    (∀ b ∈ ([] : List MWBehavior), b = MWBehavior.callsNext) ∧
    (composeRun (([] : List MWBehavior) ++ MWBehavior.callsNextTwice :: [])).2 =
      Except.error reentrantMsg :=
  ⟨by simp, reentrant_next_faults [] [] (by simp)⟩
